import Mathlib

/-!
Verification of the toy payments engine.

This file gives a shallow embedding of the two-stage transaction pipeline:
the account state machine (`ClientAccount` from `structs/clients.rs`), the
transaction record lifecycle (`TransactionRecord` from `structs/transaction.rs`),
and the recorder/applier stages (`store_transactions` / `process_transactions`
and the five action functions from `processors/txprocessor.rs`).

Monetary amounts are modelled as exact rationals: `rust_decimal::Decimal`
arithmetic (addition, subtraction, comparison, `round_dp`) is exact on the
values the engine manipulates, so `ℚ` with an explicit banker's rounding to
four fractional digits is a faithful model of the Decimal operations used.
The `f32` field that the source parses amounts into is NOT modelled here
except where a claim is about it; instruction amounts are carried as the
exact rational value of the `f32` the decoder produced.

The two `HashMap` ledgers are modelled as association lists with
first-match lookup; `HashMap::insert` (overwrite) and in-place mutation
through `get_mut` become `insertMap` and `setMap`.
-/

attribute [local semireducible] Rat.mul Rat.add Rat.sub Rat.inv

namespace ToyPayments

/-- The `ClientAccount` struct of `structs/clients.rs`. -/
structure ClientAccount where
  client : ℕ
  available : ℚ
  held : ℚ
  total : ℚ
  locked : Bool
deriving DecidableEq, Repr

/-- `ClientAccount::new`: all monetary fields zero, unlocked. -/
def ClientAccount.new (client : ℕ) : ClientAccount :=
  { client := client, available := 0, held := 0, total := 0, locked := false }

/-- `ClientAccount::update_total`: `total = available + held`. -/
def ClientAccount.update_total (a : ClientAccount) : ClientAccount :=
  { a with total := a.available + a.held }

/-- `ClientAccount::deposit`: credits `available` unless the account is locked. -/
def ClientAccount.deposit (a : ClientAccount) (amount : ℚ) : ClientAccount :=
  if a.locked = false then
    ClientAccount.update_total { a with available := a.available + amount }
  else a

/-- `ClientAccount::withdrawal`: debits `available` unless locked or
insufficient funds. -/
def ClientAccount.withdrawal (a : ClientAccount) (amount : ℚ) : ClientAccount :=
  if a.locked = false ∧ 0 ≤ a.available - amount then
    ClientAccount.update_total { a with available := a.available - amount }
  else a

/-- `ClientAccount::dispute`: moves `amount` from `available` to `held`
unless locked or insufficient funds. -/
def ClientAccount.dispute (a : ClientAccount) (amount : ℚ) : ClientAccount :=
  if a.locked = false ∧ 0 ≤ a.available - amount then
    ClientAccount.update_total
      { a with available := a.available - amount, held := a.held + amount }
  else a

/-- `ClientAccount::resolve`: moves `amount` from `held` back to `available`
unless locked or insufficient held funds. -/
def ClientAccount.resolve (a : ClientAccount) (amount : ℚ) : ClientAccount :=
  if a.locked = false ∧ 0 ≤ a.held - amount then
    ClientAccount.update_total
      { a with available := a.available + amount, held := a.held - amount }
  else a

/-- `ClientAccount::chargeback`: removes `amount` from `held` and locks the
account, unless already locked or insufficient held funds. -/
def ClientAccount.chargeback (a : ClientAccount) (amount : ℚ) : ClientAccount :=
  if a.locked = false ∧ 0 ≤ a.held - amount then
    { ClientAccount.update_total { a with held := a.held - amount } with locked := true }
  else a

/-- The `TransactionRecord` struct of `structs/transaction.rs`. -/
structure TransactionRecord where
  amount : ℚ
  client : ℕ
  disputed : Bool
deriving DecidableEq, Repr

/-- `TransactionRecord::dispute`: marks the record disputed. -/
def TransactionRecord.dispute (r : TransactionRecord) : TransactionRecord :=
  { r with disputed := true }

/-- `TransactionRecord::resolve`: clears the disputed flag. -/
def TransactionRecord.resolve (r : TransactionRecord) : TransactionRecord :=
  { r with disputed := false }

/-- Round-half-even to an integer, the midpoint strategy of
`rust_decimal`'s `round_dp`; computed from the rational's reduced
numerator and denominator with floor division. -/
def roundHalfEven (q : ℚ) : ℤ :=
  let n := q.num
  let d := (q.den : ℤ)
  let f := Int.fdiv n d
  let r := n - f * d
  if 2 * r < d then f
  else if d < 2 * r then f + 1
  else if f % 2 = 0 then f else f + 1

/-- `Decimal::round_dp(4)`: banker's rounding to 4 fractional digits. -/
def roundDp4 (q : ℚ) : ℚ :=
  (roundHalfEven (q * 10000) : ℚ) / 10000

/-- The amount computation both stages perform on an instruction:
`Decimal::from_f32(t.amount().unwrap_or(0.0)).unwrap_or(zero).round_dp(4)`,
with the `f32` idealized to the exact rational it denotes. -/
def parseAmount (a : Option ℚ) : ℚ :=
  roundDp4 (a.getD 0)

/-- The `Transaction` struct of `structs/transaction.rs`: one decoded
instruction. The `amount` field holds the exact rational value of the
parsed `f32` (`none` when the field was empty or invalid). -/
structure Transaction where
  tx_type : String
  client : ℕ
  tx : ℕ
  amount : Option ℚ
deriving DecidableEq, Repr

/-- The `From<&Transaction> for TransactionRecord` conversion. -/
def TransactionRecord.fromTx (t : Transaction) : TransactionRecord :=
  { amount := parseAmount t.amount, client := t.client, disputed := false }

/-- First-match association-list lookup, modelling `HashMap::get`. -/
def lookupMap {α : Type} (k : ℕ) : List (ℕ × α) → Option α
  | [] => none
  | p :: rest => if p.1 = k then some p.2 else lookupMap k rest

/-- Replace the value stored at an existing key, modelling mutation
through `HashMap::get_mut`. -/
def setMap {α : Type} (k : ℕ) (v : α) : List (ℕ × α) → List (ℕ × α)
  | [] => []
  | p :: rest => if p.1 = k then (p.1, v) :: rest else p :: setMap k v rest

/-- `HashMap::insert`: overwrite an existing binding or add a new one. -/
def insertMap {α : Type} (k : ℕ) (v : α) (m : List (ℕ × α)) : List (ℕ × α) :=
  match lookupMap k m with
  | some _ => setMap k v m
  | none => m ++ [(k, v)]

/-- The two shared ledgers: `tx_ledger : HashMap<u32, TransactionRecord>`
and `client_ledger : HashMap<u16, ClientAccount>`. -/
structure Ledger where
  txs : List (ℕ × TransactionRecord)
  accounts : List (ℕ × ClientAccount)
deriving DecidableEq, Repr

/-- Both ledgers empty, the state at the start of a run. -/
def initLedger : Ledger := { txs := [], accounts := [] }

/-- The `deposit` action of `txprocessor.rs`: get-or-create the account,
then `ClientAccount::deposit` on it. -/
def procDeposit (st : Ledger) (client : ℕ) (amount : ℚ) : Ledger :=
  match lookupMap client st.accounts with
  | some acct =>
    { st with accounts := setMap client (ClientAccount.deposit acct amount) st.accounts }
  | none =>
    { st with accounts :=
        insertMap client (ClientAccount.deposit (ClientAccount.new client) amount) st.accounts }

/-- The `withdrawal` action of `txprocessor.rs`: withdraw from an existing
account; if the client is unknown, only insert a fresh zero account (the
withdrawal itself is not applied). -/
def procWithdrawal (st : Ledger) (client : ℕ) (amount : ℚ) : Ledger :=
  match lookupMap client st.accounts with
  | some acct =>
    { st with accounts := setMap client (ClientAccount.withdrawal acct amount) st.accounts }
  | none =>
    { st with accounts := insertMap client (ClientAccount.new client) st.accounts }

/-- The `dispute` action of `txprocessor.rs`: if the record exists, the
client id matches, and the account exists, apply `ClientAccount::dispute`
to the account and mark the record disputed (unconditionally). -/
def procDispute (st : Ledger) (tx_id : ℕ) (client : ℕ) : Ledger :=
  match lookupMap tx_id st.txs with
  | none => st
  | some r =>
    if r.client = client then
      match lookupMap client st.accounts with
      | none => st
      | some acct =>
        { txs := setMap tx_id (TransactionRecord.dispute r) st.txs,
          accounts := setMap client (ClientAccount.dispute acct r.amount) st.accounts }
    else st

/-- The `resolve` action of `txprocessor.rs`: if the record exists, is
disputed, and the client id matches, apply `ClientAccount::resolve` to the
account (if it exists) and clear the record's disputed flag. -/
def procResolve (st : Ledger) (tx_id : ℕ) (client : ℕ) : Ledger :=
  match lookupMap tx_id st.txs with
  | none => st
  | some r =>
    if r.disputed = true ∧ r.client = client then
      match lookupMap client st.accounts with
      | none => st
      | some acct =>
        { txs := setMap tx_id (TransactionRecord.resolve r) st.txs,
          accounts := setMap client (ClientAccount.resolve acct r.amount) st.accounts }
    else st

/-- The `chargeback` action of `txprocessor.rs`: like `resolve` but applies
`ClientAccount::chargeback` (which locks the account); the record's
disputed flag is cleared via `transaction.resolve()`. -/
def procChargeback (st : Ledger) (tx_id : ℕ) (client : ℕ) : Ledger :=
  match lookupMap tx_id st.txs with
  | none => st
  | some r =>
    if r.disputed = true ∧ r.client = client then
      match lookupMap client st.accounts with
      | none => st
      | some acct =>
        { txs := setMap tx_id (TransactionRecord.resolve r) st.txs,
          accounts := setMap client (ClientAccount.chargeback acct r.amount) st.accounts }
    else st

/-- One recorder-stage step (`store_transactions` body): deposits and
withdrawals upsert a `TransactionRecord`; dispute-class instructions pass
through; any other type tag is `InvalidTxType` (`none`). -/
def recordTx (st : Ledger) (t : Transaction) : Option Ledger :=
  if t.tx_type = "deposit" ∨ t.tx_type = "withdrawal" then
    some { st with txs := insertMap t.tx (TransactionRecord.fromTx t) st.txs }
  else if t.tx_type = "dispute" ∨ t.tx_type = "resolve" ∨ t.tx_type = "chargeback" then
    some st
  else none

/-- One applier-stage step (`process_transactions` body): dispatch on the
type tag to the five actions; any other tag is `InvalidTxType` (`none`). -/
def processTx (st : Ledger) (t : Transaction) : Option Ledger :=
  if t.tx_type = "deposit" then
    some (procDeposit st t.client (parseAmount t.amount))
  else if t.tx_type = "withdrawal" then
    some (procWithdrawal st t.client (parseAmount t.amount))
  else if t.tx_type = "dispute" then
    some (procDispute st t.tx t.client)
  else if t.tx_type = "resolve" then
    some (procResolve st t.tx t.client)
  else if t.tx_type = "chargeback" then
    some (procChargeback st t.tx t.client)
  else none

/-- One pipeline step: recorder stage then applier stage on the same
instruction (the FIFO channels deliver instructions in order, so the
sequential composition is the observable behaviour). -/
def stepTx (st : Ledger) (t : Transaction) : Option Ledger :=
  match recordTx st t with
  | some st1 => processTx st1 t
  | none => none

/-- Run a batch of instructions; a fatal `InvalidTxType` aborts the run,
leaving the ledgers as they were. -/
def runTxs (st : Ledger) : List Transaction → Ledger
  | [] => st
  | t :: ts =>
    match stepTx st t with
    | some st1 => runTxs st1 ts
    | none => st

/-- All observation points of a run: the state before each instruction and
the final state. -/
def obsStates (st : Ledger) : List Transaction → List Ledger
  | [] => [st]
  | t :: ts =>
    st ::
      (match stepTx st t with
       | some st1 => obsStates st1 ts
       | none => [st])

/-- The account-balance equation `total == available + held`. -/
def totalBalanced (a : ClientAccount) : Prop :=
  a.total = a.available + a.held

/-- Both monetary balances of an account are nonnegative. -/
def nonnegAccount (a : ClientAccount) : Prop :=
  0 ≤ a.available ∧ 0 ≤ a.held

/-- Every stored account has nonnegative balances and every stored record
has a nonnegative amount. -/
def nonnegLedger (st : Ledger) : Prop :=
  (∀ c a, lookupMap c st.accounts = some a → nonnegAccount a) ∧
  (∀ k r, lookupMap k st.txs = some r → 0 ≤ r.amount)

/-- Every stored account satisfies `total == available + held`. -/
def balancedLedger (st : Ledger) : Prop :=
  ∀ c a, lookupMap c st.accounts = some a → totalBalanced a

/-- A rational expressible as `m * 2^e`: every finite `f32` denotes such a
value, so the `amount: Option<f32>` field of `Transaction` can only carry
rationals of this shape. -/
def f32Exact (q : ℚ) : Prop :=
  ∃ (m : ℤ) (e : ℤ), q = (m : ℚ) * 2 ^ e

/-- The polling skeleton shared by `store_transactions` and
`process_transactions`: a countdown starts at the retry budget, each empty
poll decrements it (stopping when it reaches zero), each received
instruction is processed with the countdown left as it is. The input list
is the sequence of `try_recv` outcomes; the result is the list of
instructions the stage processed before stopping. -/
def processedPolls {α : Type} : ℕ → List (Option α) → List α
  | _, [] => []
  | retry, some t :: rest => t :: processedPolls retry rest
  | retry, none :: rest =>
    if retry - 1 = 0 then [] else processedPolls (retry - 1) rest

/-- `let mut retry: u32 = 100000;` — the fixed retry budget of both stages. -/
def retryBudget : ℕ := 100000

/-- A poll trace of `n` message/empty pairs: every empty poll is
immediately preceded and followed by an arrival. -/
def altPolls {α : Type} (t : α) : ℕ → List (Option α)
  | 0 => []
  | n + 1 => some t :: none :: altPolls t n

/-- No two consecutive empty polls anywhere in the trace: every idle gap
between arrivals has length at most one. -/
def noTwoEmpty {α : Type} : List (Option α) → Bool
  | [] => true
  | [_] => true
  | none :: none :: _ => false
  | _ :: rest => noTwoEmpty rest

/-- The number of empty polls in a trace. -/
def countNones {α : Type} : List (Option α) → ℕ
  | [] => 0
  | none :: rest => countNones rest + 1
  | some _ :: rest => countNones rest

/-- Looking a key up after `setMap`: the stored value changes exactly at
the written key, and only if that key was present. -/
theorem lookupMap_setMap {α : Type} (c k : ℕ) (v : α) (m : List (ℕ × α)) :
    lookupMap c (setMap k v m) =
      if k = c then (lookupMap c m).map (fun _ => v) else lookupMap c m := by
  induction m with
  | nil => simp [lookupMap, setMap]
  | cons p rest ih =>
    by_cases hpk : p.1 = k
    · by_cases hkc : k = c <;> simp [lookupMap, setMap, hpk, hkc]
    · by_cases hpc : p.1 = c
      · have hkc : k ≠ c := fun h => hpk (h ▸ hpc)
        simp [lookupMap, setMap, hpk, hpc, hkc, Ne.symm hkc]
      · simp [lookupMap, setMap, hpk, hpc, ih]

/-- Appending a fresh binding: lookups of other keys are unchanged. -/
theorem lookupMap_append_single {α : Type} (c k : ℕ) (v : α) (m : List (ℕ × α))
    (h : lookupMap k m = none) :
    lookupMap c (m ++ [(k, v)]) = if k = c then some v else lookupMap c m := by
  induction m with
  | nil => simp [lookupMap]
  | cons p rest ih =>
    simp only [lookupMap] at h
    by_cases hpk : p.1 = k
    · simp [hpk] at h
    · simp only [hpk, if_false] at h
      by_cases hpc : p.1 = c
      · have hkc : k ≠ c := fun hh => hpk (hh ▸ hpc)
        simp [lookupMap, hpc, hkc]
      · simp [lookupMap, hpc, ih h]

/-- Looking a key up after `insertMap`. -/
theorem lookupMap_insertMap {α : Type} (c k : ℕ) (v : α) (m : List (ℕ × α)) :
    lookupMap c (insertMap k v m) = if k = c then some v else lookupMap c m := by
  unfold insertMap
  cases h : lookupMap k m with
  | some w =>
    rw [lookupMap_setMap]
    by_cases hkc : k = c
    · subst hkc; simp [h]
    · simp [hkc]
  | none => exact lookupMap_append_single c k v m h

/-- Writing back the value already stored at a key leaves the map
unchanged. -/
theorem setMap_lookup_self {α : Type} (k : ℕ) (v : α) (m : List (ℕ × α))
    (h : lookupMap k m = some v) : setMap k v m = m := by
  induction m with
  | nil => simp [lookupMap] at h
  | cons p rest ih =>
    obtain ⟨pk, pv⟩ := p
    by_cases hpk : pk = k
    · subst hpk
      have hv : pv = v := by simpa [lookupMap] using h
      subst hv
      simp [setMap]
    · simp only [lookupMap, hpk, if_false] at h
      simp [setMap, hpk, ih h]

/-- Every account operation leaves a locked account untouched. -/
theorem locked_account_ops_noop (a : ClientAccount) (q : ℚ) (h : a.locked = true) :
    a.deposit q = a ∧ a.withdrawal q = a ∧ a.dispute q = a ∧
      a.resolve q = a ∧ a.chargeback q = a := by
  refine ⟨?_, ?_, ?_, ?_, ?_⟩ <;>
    simp [ClientAccount.deposit, ClientAccount.withdrawal, ClientAccount.dispute,
      ClientAccount.resolve, ClientAccount.chargeback, h]

/-- Every account operation reestablishes `total == available + held`. -/
theorem account_ops_balanced (a : ClientAccount) (q : ℚ) (h : totalBalanced a) :
    totalBalanced (a.deposit q) ∧ totalBalanced (a.withdrawal q) ∧
      totalBalanced (a.dispute q) ∧ totalBalanced (a.resolve q) ∧
      totalBalanced (a.chargeback q) := by
  refine ⟨?_, ?_, ?_, ?_, ?_⟩ <;>
    · simp only [ClientAccount.deposit, ClientAccount.withdrawal, ClientAccount.dispute,
        ClientAccount.resolve, ClientAccount.chargeback]
      split <;> simp_all [totalBalanced, ClientAccount.update_total]

/-- With a nonnegative amount, every account operation preserves
nonnegativity of both balances. -/
theorem account_ops_nonneg (a : ClientAccount) (q : ℚ) (hq : 0 ≤ q)
    (h : nonnegAccount a) :
    nonnegAccount (a.deposit q) ∧ nonnegAccount (a.withdrawal q) ∧
      nonnegAccount (a.dispute q) ∧ nonnegAccount (a.resolve q) ∧
      nonnegAccount (a.chargeback q) := by
  obtain ⟨h1, h2⟩ := h
  refine ⟨?_, ?_, ?_, ?_, ?_⟩ <;>
    · dsimp only [ClientAccount.deposit, ClientAccount.withdrawal, ClientAccount.dispute,
        ClientAccount.resolve, ClientAccount.chargeback, ClientAccount.update_total,
        nonnegAccount]
      split_ifs with hc <;>
        · try obtain ⟨hc1, hc2⟩ := hc
          refine ⟨?_, ?_⟩ <;> dsimp only <;> linarith

/-- The half-even integer rounding of a nonnegative rational is
nonnegative. -/
theorem roundHalfEven_nonneg (q : ℚ) (h : 0 ≤ q) : 0 ≤ roundHalfEven q := by
  have hn : 0 ≤ q.num := Rat.num_nonneg.mpr h
  have hd : 0 < (q.den : ℤ) := by exact_mod_cast q.den_pos
  have hf : 0 ≤ Int.fdiv q.num q.den := by
    rw [Int.fdiv_eq_ediv _ (le_of_lt hd)]
    exact Int.ediv_nonneg hn (le_of_lt hd)
  simp only [roundHalfEven]
  split_ifs <;> omega

/-- Rounding to four fractional digits preserves nonnegativity. -/
theorem roundDp4_nonneg (q : ℚ) (h : 0 ≤ q) : 0 ≤ roundDp4 q := by
  unfold roundDp4
  have : (0 : ℚ) ≤ (roundHalfEven (q * 10000) : ℚ) := by
    exact_mod_cast roundHalfEven_nonneg (q * 10000) (by linarith)
  positivity

/-- If the instruction's optional amount is nonnegative (or missing), the
amount actually applied is nonnegative. -/
theorem parseAmount_nonneg (a : Option ℚ) (h : ∀ q, a = some q → 0 ≤ q) :
    0 ≤ parseAmount a := by
  cases a with
  | none => exact roundDp4_nonneg 0 le_rfl
  | some q => exact roundDp4_nonneg q (h q rfl)

/-- A pointwise property of stored values survives `setMap` when the
written value has it. -/
theorem lookupMap_setMap_forall {α : Type} (P : α → Prop) (k : ℕ) (v : α)
    (m : List (ℕ × α)) (hm : ∀ c a, lookupMap c m = some a → P a) (hv : P v) :
    ∀ c a, lookupMap c (setMap k v m) = some a → P a := by
  intro c a h
  rw [lookupMap_setMap] at h
  split at h
  · cases hl : lookupMap c m with
    | none => rw [hl] at h; simp at h
    | some w =>
      rw [hl] at h
      simp at h
      exact h ▸ hv
  · exact hm c a h

/-- A pointwise property of stored values survives `insertMap` when the
inserted value has it. -/
theorem lookupMap_insertMap_forall {α : Type} (P : α → Prop) (k : ℕ) (v : α)
    (m : List (ℕ × α)) (hm : ∀ c a, lookupMap c m = some a → P a) (hv : P v) :
    ∀ c a, lookupMap c (insertMap k v m) = some a → P a := by
  intro c a h
  rw [lookupMap_insertMap] at h
  split at h
  · exact (Option.some.injEq .. ▸ h : v = a) ▸ hv
  · exact hm c a h

/-- A lookup is unchanged by `setMap` at another key, and rewritten to the
stored value when the written value equals it. -/
theorem lookupMap_setMap_of_self {α : Type} (k c : ℕ) (v : α) (m : List (ℕ × α))
    (a : α) (hl : lookupMap c m = some a) (hv : k = c → v = a) :
    lookupMap c (setMap k v m) = some a := by
  rw [lookupMap_setMap]
  split
  · rename_i hkc; rw [hl]; simp [hv hkc]
  · exact hl

/-- A lookup is unchanged by `insertMap` at another key. -/
theorem lookupMap_insertMap_of_ne {α : Type} (k c : ℕ) (v : α) (m : List (ℕ × α))
    (hk : k ≠ c) : lookupMap c (insertMap k v m) = lookupMap c m := by
  rw [lookupMap_insertMap, if_neg hk]

/-- The recorder stage never touches the account ledger. -/
theorem recordTx_accounts (s : Ledger) (t : Transaction) (s1 : Ledger)
    (h : recordTx s t = some s1) : s1.accounts = s.accounts := by
  unfold recordTx at h
  split_ifs at h <;> · injection h with h; subst h; rfl

/-- The recorder stage forwards dispute-class instructions without
touching either ledger. -/
theorem recordTx_passthrough (s : Ledger) (t : Transaction)
    (h : t.tx_type = "dispute" ∨ t.tx_type = "resolve" ∨ t.tx_type = "chargeback") :
    recordTx s t = some s := by
  rcases h with h | h | h <;> simp [recordTx, h]

/-- One pipeline step preserves the balance equation on every stored
account. -/
theorem stepTx_balanced (s : Ledger) (t : Transaction) (s' : Ledger)
    (hb : balancedLedger s) (hstep : stepTx s t = some s') : balancedLedger s' := by
  have hnew : ∀ c : ℕ, totalBalanced (ClientAccount.new c) := by
    intro c; simp [totalBalanced, ClientAccount.new]
  by_cases h1 : t.tx_type = "deposit"
  · simp [stepTx, recordTx, processTx, h1, if_true, true_or, Option.some.injEq] at hstep
    subst hstep
    unfold procDeposit
    cases hl : lookupMap t.client
        ({ s with txs := insertMap t.tx (TransactionRecord.fromTx t) s.txs }).accounts with
    | some acct =>
      exact lookupMap_setMap_forall _ _ _ _ hb
        ((account_ops_balanced acct _ (hb _ _ hl)).1)
    | none =>
      exact lookupMap_insertMap_forall _ _ _ _ hb
        ((account_ops_balanced _ _ (hnew t.client)).1)
  · by_cases h2 : t.tx_type = "withdrawal"
    · simp [stepTx, recordTx, processTx, h1, h2, if_true, or_true, if_false,
        Option.some.injEq] at hstep
      subst hstep
      unfold procWithdrawal
      cases hl : lookupMap t.client
          ({ s with txs := insertMap t.tx (TransactionRecord.fromTx t) s.txs }).accounts with
      | some acct =>
        exact lookupMap_setMap_forall _ _ _ _ hb
          ((account_ops_balanced acct _ (hb _ _ hl)).2.1)
      | none =>
        exact lookupMap_insertMap_forall _ _ _ _ hb (hnew t.client)
    · by_cases h3 : t.tx_type = "dispute"
      · simp [stepTx, recordTx, processTx, h1, h2, h3, if_true, if_false, or_self,
          or_true, true_or, false_or, Option.some.injEq] at hstep
        subst hstep
        unfold procDispute
        cases hr : lookupMap t.tx s.txs with
        | none => exact hb
        | some r =>
          simp only []
          split_ifs with hcl
          · cases ha : lookupMap t.client s.accounts with
            | none => exact hb
            | some acct =>
              exact lookupMap_setMap_forall _ _ _ _ hb
                ((account_ops_balanced acct _ (hb _ _ ha)).2.2.1)
          · exact hb
      · by_cases h4 : t.tx_type = "resolve"
        · simp [stepTx, recordTx, processTx, h1, h2, h3, h4, if_true, if_false, or_self,
            or_true, true_or, false_or, Option.some.injEq] at hstep
          subst hstep
          unfold procResolve
          cases hr : lookupMap t.tx s.txs with
          | none => exact hb
          | some r =>
            simp only []
            split_ifs with hcl
            · cases ha : lookupMap t.client s.accounts with
              | none => exact hb
              | some acct =>
                exact lookupMap_setMap_forall _ _ _ _ hb
                  ((account_ops_balanced acct _ (hb _ _ ha)).2.2.2.1)
            · exact hb
        · by_cases h5 : t.tx_type = "chargeback"
          · simp [stepTx, recordTx, processTx, h1, h2, h3, h4, h5, if_true, if_false,
              or_self, or_true, true_or, false_or, Option.some.injEq] at hstep
            subst hstep
            unfold procChargeback
            cases hr : lookupMap t.tx s.txs with
            | none => exact hb
            | some r =>
              simp only []
              split_ifs with hcl
              · cases ha : lookupMap t.client s.accounts with
                | none => exact hb
                | some acct =>
                  exact lookupMap_setMap_forall _ _ _ _ hb
                    ((account_ops_balanced acct _ (hb _ _ ha)).2.2.2.2)
              · exact hb
          · simp [stepTx, recordTx, h1, h2, h3, h4, h5] at hstep

/-- One pipeline step preserves nonnegativity of all balances and record
amounts, provided this instruction's amount is nonnegative. -/
theorem stepTx_nonneg (s : Ledger) (t : Transaction) (s' : Ledger)
    (ht : ∀ q, t.amount = some q → 0 ≤ q)
    (hn : nonnegLedger s) (hstep : stepTx s t = some s') : nonnegLedger s' := by
  have hq : 0 ≤ parseAmount t.amount := parseAmount_nonneg t.amount ht
  have hnew : ∀ c : ℕ, nonnegAccount (ClientAccount.new c) := by
    intro c; exact ⟨le_refl 0, le_refl 0⟩
  have htx : ∀ k r, lookupMap k (insertMap t.tx (TransactionRecord.fromTx t) s.txs) =
      some r → 0 ≤ r.amount :=
    lookupMap_insertMap_forall _ _ _ _ hn.2 hq
  by_cases h1 : t.tx_type = "deposit"
  · simp [stepTx, recordTx, processTx, h1, if_true, true_or, Option.some.injEq] at hstep
    subst hstep
    unfold procDeposit
    cases hl : lookupMap t.client
        ({ s with txs := insertMap t.tx (TransactionRecord.fromTx t) s.txs }).accounts with
    | some acct =>
      exact ⟨lookupMap_setMap_forall _ _ _ _ hn.1
        ((account_ops_nonneg acct _ hq (hn.1 _ _ hl)).1), htx⟩
    | none =>
      exact ⟨lookupMap_insertMap_forall _ _ _ _ hn.1
        ((account_ops_nonneg _ _ hq (hnew t.client)).1), htx⟩
  · by_cases h2 : t.tx_type = "withdrawal"
    · simp [stepTx, recordTx, processTx, h1, h2, if_true, or_true, if_false,
        Option.some.injEq] at hstep
      subst hstep
      unfold procWithdrawal
      cases hl : lookupMap t.client
          ({ s with txs := insertMap t.tx (TransactionRecord.fromTx t) s.txs }).accounts with
      | some acct =>
        exact ⟨lookupMap_setMap_forall _ _ _ _ hn.1
          ((account_ops_nonneg acct _ hq (hn.1 _ _ hl)).2.1), htx⟩
      | none =>
        exact ⟨lookupMap_insertMap_forall _ _ _ _ hn.1 (hnew t.client), htx⟩
    · by_cases h3 : t.tx_type = "dispute"
      · simp [stepTx, recordTx, processTx, h1, h2, h3, if_true, if_false, or_self,
          or_true, true_or, false_or, Option.some.injEq] at hstep
        subst hstep
        unfold procDispute
        cases hr : lookupMap t.tx s.txs with
        | none => exact hn
        | some r =>
          simp only []
          split_ifs with hcl
          · cases ha : lookupMap t.client s.accounts with
            | none => exact hn
            | some acct =>
              exact ⟨lookupMap_setMap_forall _ _ _ _ hn.1
                  ((account_ops_nonneg acct _ (hn.2 _ _ hr) (hn.1 _ _ ha)).2.2.1),
                lookupMap_setMap_forall (fun r0 => 0 ≤ r0.amount) t.tx
                  (TransactionRecord.dispute r) s.txs hn.2 (hn.2 t.tx r hr)⟩
          · exact hn
      · by_cases h4 : t.tx_type = "resolve"
        · simp [stepTx, recordTx, processTx, h1, h2, h3, h4, if_true, if_false, or_self,
            or_true, true_or, false_or, Option.some.injEq] at hstep
          subst hstep
          unfold procResolve
          cases hr : lookupMap t.tx s.txs with
          | none => exact hn
          | some r =>
            simp only []
            split_ifs with hcl
            · cases ha : lookupMap t.client s.accounts with
              | none => exact hn
              | some acct =>
                exact ⟨lookupMap_setMap_forall _ _ _ _ hn.1
                    ((account_ops_nonneg acct _ (hn.2 _ _ hr) (hn.1 _ _ ha)).2.2.2.1),
                  lookupMap_setMap_forall (fun r0 => 0 ≤ r0.amount) t.tx
                    (TransactionRecord.resolve r) s.txs hn.2 (hn.2 t.tx r hr)⟩
            · exact hn
        · by_cases h5 : t.tx_type = "chargeback"
          · simp [stepTx, recordTx, processTx, h1, h2, h3, h4, h5, if_true, if_false,
              or_self, or_true, true_or, false_or, Option.some.injEq] at hstep
            subst hstep
            unfold procChargeback
            cases hr : lookupMap t.tx s.txs with
            | none => exact hn
            | some r =>
              simp only []
              split_ifs with hcl
              · cases ha : lookupMap t.client s.accounts with
                | none => exact hn
                | some acct =>
                  exact ⟨lookupMap_setMap_forall _ _ _ _ hn.1
                      ((account_ops_nonneg acct _ (hn.2 _ _ hr) (hn.1 _ _ ha)).2.2.2.2),
                    lookupMap_setMap_forall (fun r0 => 0 ≤ r0.amount) t.tx
                      (TransactionRecord.resolve r) s.txs hn.2 (hn.2 t.tx r hr)⟩
              · exact hn
          · simp [stepTx, recordTx, h1, h2, h3, h4, h5] at hstep

/-- One pipeline step leaves a locked account exactly as it is. -/
theorem stepTx_locked (s : Ledger) (t : Transaction) (s' : Ledger) (c : ℕ)
    (acct : ClientAccount) (hl : lookupMap c s.accounts = some acct)
    (hlock : acct.locked = true) (hstep : stepTx s t = some s') :
    lookupMap c s'.accounts = some acct := by
  have hself : ∀ (a2 : ClientAccount) (v : ClientAccount) (k : ℕ),
      lookupMap k s.accounts = some a2 → (k = c → v = acct) →
      lookupMap c (setMap k v s.accounts) = some acct := by
    intro a2 v k _ hv
    exact lookupMap_setMap_of_self k c v s.accounts acct hl hv
  have hsame : ∀ (a2 : ClientAccount) (k : ℕ), lookupMap k s.accounts = some a2 →
      k = c → a2 = acct := by
    intro a2 k hk hkc
    subst hkc
    rw [hl] at hk
    exact (Option.some.inj hk).symm
  by_cases h1 : t.tx_type = "deposit"
  · simp [stepTx, recordTx, processTx, h1, if_true, true_or, Option.some.injEq] at hstep
    subst hstep
    unfold procDeposit
    cases hla : lookupMap t.client
        ({ s with txs := insertMap t.tx (TransactionRecord.fromTx t) s.txs }).accounts with
    | some a2 =>
      exact hself a2 _ t.client hla fun hkc =>
        (hsame a2 t.client hla hkc ▸ (locked_account_ops_noop acct _ hlock).1 : _)
    | none =>
      have hne : t.client ≠ c := fun h => by rw [h, hl] at hla; exact Option.noConfusion hla
      show lookupMap c (insertMap t.client _ s.accounts) = some acct
      rw [lookupMap_insertMap_of_ne _ _ _ _ hne]
      exact hl
  · by_cases h2 : t.tx_type = "withdrawal"
    · simp [stepTx, recordTx, processTx, h1, h2, if_true, or_true, if_false,
        Option.some.injEq] at hstep
      subst hstep
      unfold procWithdrawal
      cases hla : lookupMap t.client
          ({ s with txs := insertMap t.tx (TransactionRecord.fromTx t) s.txs }).accounts with
      | some a2 =>
        exact hself a2 _ t.client hla fun hkc =>
          (hsame a2 t.client hla hkc ▸ (locked_account_ops_noop acct _ hlock).2.1 : _)
      | none =>
        have hne : t.client ≠ c := fun h => by rw [h, hl] at hla; exact Option.noConfusion hla
        show lookupMap c (insertMap t.client _ s.accounts) = some acct
        rw [lookupMap_insertMap_of_ne _ _ _ _ hne]
        exact hl
    · by_cases h3 : t.tx_type = "dispute"
      · simp [stepTx, recordTx, processTx, h1, h2, h3, if_true, if_false, or_self,
          or_true, true_or, false_or, Option.some.injEq] at hstep
        subst hstep
        unfold procDispute
        cases hr : lookupMap t.tx s.txs with
        | none => exact hl
        | some r =>
          simp only []
          split_ifs with hcl
          · cases ha : lookupMap t.client s.accounts with
            | none => exact hl
            | some a2 =>
              exact hself a2 _ t.client ha fun hkc =>
                (hsame a2 t.client ha hkc ▸ (locked_account_ops_noop acct _ hlock).2.2.1 : _)
          · exact hl
      · by_cases h4 : t.tx_type = "resolve"
        · simp [stepTx, recordTx, processTx, h1, h2, h3, h4, if_true, if_false, or_self,
            or_true, true_or, false_or, Option.some.injEq] at hstep
          subst hstep
          unfold procResolve
          cases hr : lookupMap t.tx s.txs with
          | none => exact hl
          | some r =>
            simp only []
            split_ifs with hcl
            · cases ha : lookupMap t.client s.accounts with
              | none => exact hl
              | some a2 =>
                exact hself a2 _ t.client ha fun hkc =>
                  (hsame a2 t.client ha hkc ▸
                    (locked_account_ops_noop acct _ hlock).2.2.2.1 : _)
            · exact hl
        · by_cases h5 : t.tx_type = "chargeback"
          · simp [stepTx, recordTx, processTx, h1, h2, h3, h4, h5, if_true, if_false,
              or_self, or_true, true_or, false_or, Option.some.injEq] at hstep
            subst hstep
            unfold procChargeback
            cases hr : lookupMap t.tx s.txs with
            | none => exact hl
            | some r =>
              simp only []
              split_ifs with hcl
              · cases ha : lookupMap t.client s.accounts with
                | none => exact hl
                | some a2 =>
                  exact hself a2 _ t.client ha fun hkc =>
                    (hsame a2 t.client ha hkc ▸
                      (locked_account_ops_noop acct _ hlock).2.2.2.2 : _)
              · exact hl
          · simp [stepTx, recordTx, h1, h2, h3, h4, h5] at hstep

/-- A locked account is carried unchanged through the rest of any run. -/
theorem runTxs_locked_persists (ts : List Transaction) :
    ∀ (s : Ledger) (c : ℕ) (acct : ClientAccount),
      lookupMap c s.accounts = some acct → acct.locked = true →
      lookupMap c (runTxs s ts).accounts = some acct := by
  induction ts with
  | nil => intro s c acct hl _; exact hl
  | cons t ts ih =>
    intro s c acct hl hlock
    simp only [runTxs]
    cases hstep : stepTx s t with
    | some s1 => exact ih s1 c acct (stepTx_locked s t s1 c acct hl hlock hstep) hlock
    | none => exact hl

/-- A state predicate preserved by every pipeline step holds at every
observation point of a run whose instructions all satisfy `Q`. -/
theorem obsStates_preserve (P : Ledger → Prop) (Q : Transaction → Prop)
    (hstep : ∀ s t s', Q t → P s → stepTx s t = some s' → P s') :
    ∀ (ts : List Transaction) (s : Ledger), P s → (∀ t ∈ ts, Q t) →
      ∀ s' ∈ obsStates s ts, P s' := by
  intro ts
  induction ts with
  | nil =>
    intro s hP _ s' hs'
    simp only [obsStates, List.mem_singleton] at hs'
    exact hs' ▸ hP
  | cons t ts ih =>
    intro s hP hQ s' hs'
    cases hst : stepTx s t with
    | some s1 =>
      simp only [obsStates, hst, List.mem_cons] at hs'
      rcases hs' with rfl | h
      · exact hP
      · exact ih s1 (hstep s t s1 (hQ t (by simp)) hP hst)
          (fun u hu => hQ u (by simp [hu])) s' h
    | none =>
      simp only [obsStates, hst, List.mem_cons, List.not_mem_nil, or_false, or_self] at hs'
      exact hs' ▸ hP

/-- Claim C1 counterexample: deposit 5, withdraw 5, then dispute the
deposit. Available funds are insufficient (`0 - 5 < 0`), the account is
unchanged — but the record IS marked disputed, refuting the claim that the
record stays undisputed. -/
theorem dispute_insufficient_noop_refuted :
    lookupMap 1 (runTxs initLedger
        [{ tx_type := "deposit", client := 1, tx := 1, amount := some 5 },
         { tx_type := "withdrawal", client := 1, tx := 2, amount := some 5 },
         { tx_type := "dispute", client := 1, tx := 1, amount := none }]).txs =
      some { amount := 5, client := 1, disputed := true } ∧
    lookupMap 1 (runTxs initLedger
        [{ tx_type := "deposit", client := 1, tx := 1, amount := some 5 },
         { tx_type := "withdrawal", client := 1, tx := 2, amount := some 5 },
         { tx_type := "dispute", client := 1, tx := 1, amount := none }]).accounts =
      some { client := 1, available := 0, held := 0, total := 0, locked := false } ∧
    ((0 : ℚ) - 5 < 0) := by
  refine ⟨by decide, by decide, by norm_num⟩

/-- Claim C1 (amended): for a dispute whose record exists with matching
client id and whose owning account exists with insufficient available
funds, the account is left unchanged — but the record is still marked
disputed (`processors/txprocessor.rs` calls `transaction.dispute()`
regardless of whether `ClientAccount::dispute` moved any funds). -/
theorem dispute_insufficient_marks_record (st : Ledger) (tx_id c : ℕ)
    (r : TransactionRecord) (acct : ClientAccount)
    (hr : lookupMap tx_id st.txs = some r) (hc : r.client = c)
    (ha : lookupMap c st.accounts = some acct)
    (hin : acct.available - r.amount < 0) :
    (procDispute st tx_id c).accounts = st.accounts ∧
    lookupMap tx_id (procDispute st tx_id c).txs = some (TransactionRecord.dispute r) ∧
    (TransactionRecord.dispute r).disputed = true := by
  have hnoop : ClientAccount.dispute acct r.amount = acct := by
    unfold ClientAccount.dispute
    rw [if_neg]
    intro hh
    exact absurd hh.2 (by linarith)
  unfold procDispute
  rw [hr]
  simp only [hc, if_pos rfl, ha]
  refine ⟨?_, ?_, rfl⟩
  · show setMap c (ClientAccount.dispute acct r.amount) st.accounts = st.accounts
    rw [hnoop]
    exact setMap_lookup_self c acct st.accounts ha
  · show lookupMap tx_id (setMap tx_id (TransactionRecord.dispute r) st.txs) = _
    rw [lookupMap_setMap, if_pos rfl, hr]
    rfl

/-- Witness for the amended C1 at a concrete ledger. -/
theorem dispute_insufficient_marks_record_witness :
    (procDispute
        { txs := [(1, { amount := 5, client := 1, disputed := false })],
          accounts := [(1, { client := 1, available := 0, held := 0, total := 0, locked := false })] } 1 1).accounts =
      [(1, ({ client := 1, available := 0, held := 0, total := 0, locked := false } : ClientAccount))] ∧
    lookupMap 1 (procDispute
        { txs := [(1, { amount := 5, client := 1, disputed := false })],
          accounts := [(1, { client := 1, available := 0, held := 0, total := 0, locked := false })] } 1 1).txs =
      some (TransactionRecord.dispute { amount := 5, client := 1, disputed := false }) ∧
    (TransactionRecord.dispute
      { amount := 5, client := 1, disputed := false }).disputed = true := by
  have h := dispute_insufficient_marks_record
    { txs := [(1, { amount := 5, client := 1, disputed := false })],
      accounts := [(1, { client := 1, available := 0, held := 0, total := 0, locked := false })] } 1 1
    { amount := 5, client := 1, disputed := false }
    { client := 1, available := 0, held := 0, total := 0, locked := false }
    (by decide) rfl (by decide) (by norm_num)
  exact ⟨h.1, h.2.1, h.2.2⟩

/-- Claim C2 counterexample: deposit 5, withdraw 5, dispute the deposit
(the account has insufficient funds, yet the record is marked disputed:
the C1 bug), then resolve it. At the resolve, the record is disputed, the
client matches, and `held - amount = 0 - 5 < 0` — yet the record's
disputed flag is cleared, refuting the claim that it stays `true`. -/
theorem resolve_insufficient_noop_refuted :
    lookupMap 1 (runTxs initLedger
        [{ tx_type := "deposit", client := 1, tx := 1, amount := some 5 },
         { tx_type := "withdrawal", client := 1, tx := 2, amount := some 5 },
         { tx_type := "dispute", client := 1, tx := 1, amount := none }]).txs =
      some { amount := 5, client := 1, disputed := true } ∧
    lookupMap 1 (runTxs initLedger
        [{ tx_type := "deposit", client := 1, tx := 1, amount := some 5 },
         { tx_type := "withdrawal", client := 1, tx := 2, amount := some 5 },
         { tx_type := "dispute", client := 1, tx := 1, amount := none }]).accounts =
      some { client := 1, available := 0, held := 0, total := 0, locked := false } ∧
    ((0 : ℚ) - 5 < 0) ∧
    lookupMap 1 (runTxs initLedger
        [{ tx_type := "deposit", client := 1, tx := 1, amount := some 5 },
         { tx_type := "withdrawal", client := 1, tx := 2, amount := some 5 },
         { tx_type := "dispute", client := 1, tx := 1, amount := none },
         { tx_type := "resolve", client := 1, tx := 1, amount := none }]).txs =
      some { amount := 5, client := 1, disputed := false } ∧
    lookupMap 1 (runTxs initLedger
        [{ tx_type := "deposit", client := 1, tx := 1, amount := some 5 },
         { tx_type := "withdrawal", client := 1, tx := 2, amount := some 5 },
         { tx_type := "dispute", client := 1, tx := 1, amount := none },
         { tx_type := "resolve", client := 1, tx := 1, amount := none }]).accounts =
      some { client := 1, available := 0, held := 0, total := 0, locked := false } := by
  refine ⟨by decide, by decide, by norm_num, by decide, by decide⟩

/-- Claim C2 (amended): for a resolve or chargeback whose record exists,
is disputed, and matches the client, if the owning account exists but is
locked or has insufficient held funds, the account is left unchanged — but
the record's disputed flag is still cleared (`transaction.resolve()` runs
regardless of whether the account operation moved any funds). -/
theorem resolve_insufficient_clears_record (st : Ledger) (tx_id c : ℕ)
    (r : TransactionRecord) (acct : ClientAccount)
    (hr : lookupMap tx_id st.txs = some r) (hd : r.disputed = true) (hc : r.client = c)
    (ha : lookupMap c st.accounts = some acct)
    (hfail : acct.locked = true ∨ acct.held - r.amount < 0) :
    (procResolve st tx_id c).accounts = st.accounts ∧
    lookupMap tx_id (procResolve st tx_id c).txs = some (TransactionRecord.resolve r) ∧
    (procChargeback st tx_id c).accounts = st.accounts ∧
    lookupMap tx_id (procChargeback st tx_id c).txs = some (TransactionRecord.resolve r) ∧
    (TransactionRecord.resolve r).disputed = false := by
  have hguard : ¬ (acct.locked = false ∧ 0 ≤ acct.held - r.amount) := by
    rcases hfail with hf | hf
    · intro hh; rw [hf] at hh; exact Bool.true_eq_false ▸ hh.1
    · intro hh; linarith [hh.2]
  have hnoop1 : ClientAccount.resolve acct r.amount = acct := by
    unfold ClientAccount.resolve
    exact if_neg hguard
  have hnoop2 : ClientAccount.chargeback acct r.amount = acct := by
    unfold ClientAccount.chargeback
    exact if_neg hguard
  have hset : setMap c acct st.accounts = st.accounts :=
    setMap_lookup_self c acct st.accounts ha
  constructor
  · unfold procResolve
    rw [hr]
    simp only [hd, hc, and_self, if_pos rfl, ha, true_and, eq_self_iff_true, if_true]
    show setMap c (ClientAccount.resolve acct r.amount) st.accounts = st.accounts
    rw [hnoop1]
    exact hset
  constructor
  · unfold procResolve
    rw [hr]
    simp only [hd, hc, and_self, if_pos rfl, ha, true_and, eq_self_iff_true, if_true]
    show lookupMap tx_id (setMap tx_id (TransactionRecord.resolve r) st.txs) = _
    rw [lookupMap_setMap, if_pos rfl, hr]
    rfl
  constructor
  · unfold procChargeback
    rw [hr]
    simp only [hd, hc, and_self, if_pos rfl, ha, true_and, eq_self_iff_true, if_true]
    show setMap c (ClientAccount.chargeback acct r.amount) st.accounts = st.accounts
    rw [hnoop2]
    exact hset
  constructor
  · unfold procChargeback
    rw [hr]
    simp only [hd, hc, and_self, if_pos rfl, ha, true_and, eq_self_iff_true, if_true]
    show lookupMap tx_id (setMap tx_id (TransactionRecord.resolve r) st.txs) = _
    rw [lookupMap_setMap, if_pos rfl, hr]
    rfl
  · rfl

/-- Witness for the amended C2 at a concrete ledger. -/
theorem resolve_insufficient_clears_record_witness :
    (procResolve
        { txs := [(1, { amount := 5, client := 1, disputed := true })],
          accounts := [(1, { client := 1, available := 0, held := 0, total := 0, locked := false })] } 1 1).accounts =
      [(1, ({ client := 1, available := 0, held := 0, total := 0, locked := false } : ClientAccount))] ∧
    lookupMap 1 (procResolve
        { txs := [(1, { amount := 5, client := 1, disputed := true })],
          accounts := [(1, { client := 1, available := 0, held := 0, total := 0, locked := false })] } 1 1).txs =
      some (TransactionRecord.resolve { amount := 5, client := 1, disputed := true }) ∧
    (TransactionRecord.resolve
      { amount := 5, client := 1, disputed := true }).disputed = false := by
  have h := resolve_insufficient_clears_record
    { txs := [(1, { amount := 5, client := 1, disputed := true })],
      accounts := [(1, { client := 1, available := 0, held := 0, total := 0, locked := false })] } 1 1
    { amount := 5, client := 1, disputed := true }
    { client := 1, available := 0, held := 0, total := 0, locked := false }
    (by decide) rfl rfl (by decide) (Or.inr (by norm_num))
  exact ⟨h.1, h.2.1, h.2.2.2.2⟩

/-- Claim C6: a dispute, resolve, or chargeback that references a
transaction id never recorded, or recorded under a different client id, is
a complete no-op on both ledgers, and the pipeline step succeeds (no
error). -/
theorem unknown_or_mismatched_tx_noop (st : Ledger) (tx_id c : ℕ)
    (h : lookupMap tx_id st.txs = none ∨
      ∃ r, lookupMap tx_id st.txs = some r ∧ r.client ≠ c) :
    procDispute st tx_id c = st ∧ procResolve st tx_id c = st ∧
    procChargeback st tx_id c = st ∧
    ∀ amt : Option ℚ,
      stepTx st { tx_type := "dispute", client := c, tx := tx_id, amount := amt } =
        some st ∧
      stepTx st { tx_type := "resolve", client := c, tx := tx_id, amount := amt } =
        some st ∧
      stepTx st { tx_type := "chargeback", client := c, tx := tx_id, amount := amt } =
        some st := by
  have hdi : procDispute st tx_id c = st := by
    unfold procDispute
    rcases h with hn | ⟨r, hr, hne⟩
    · rw [hn]
    · rw [hr]
      simp only []
      rw [if_neg hne]
  have hrv : procResolve st tx_id c = st := by
    unfold procResolve
    rcases h with hn | ⟨r, hr, hne⟩
    · rw [hn]
    · rw [hr]
      simp only []
      rw [if_neg (fun hh => hne hh.2)]
  have hcb : procChargeback st tx_id c = st := by
    unfold procChargeback
    rcases h with hn | ⟨r, hr, hne⟩
    · rw [hn]
    · rw [hr]
      simp only []
      rw [if_neg (fun hh => hne hh.2)]
  refine ⟨hdi, hrv, hcb, fun amt => ⟨?_, ?_, ?_⟩⟩ <;>
    simp [stepTx, recordTx, processTx, hdi, hrv, hcb]

/-- Witness for C6: resolving the never-recorded transaction 99 for the
unknown client 4 changes nothing and raises no error. -/
theorem unknown_or_mismatched_tx_noop_witness :
    procDispute initLedger 99 4 = initLedger ∧
    procResolve initLedger 99 4 = initLedger ∧
    procChargeback initLedger 99 4 = initLedger ∧
    stepTx initLedger { tx_type := "resolve", client := 4, tx := 99, amount := none } =
      some initLedger := by
  have h := unknown_or_mismatched_tx_noop initLedger 99 4 (Or.inl (by decide))
  exact ⟨h.1, h.2.1, h.2.2.1, (h.2.2.2 none).2.1⟩

/-- Claim C7 counterexample: a resolve targeting the unknown client 4
creates no account at all, refuting the claim that every operation type
creates an account on first reference. -/
theorem account_creation_refuted :
    runTxs initLedger
        [{ tx_type := "resolve", client := 4, tx := 99, amount := none }] = initLedger ∧
    lookupMap 4 (runTxs initLedger
        [{ tx_type := "resolve", client := 4, tx := 99, amount := none }]).accounts =
      none := by
  exact ⟨by decide, by decide⟩

/-- Claim C7 (amended): only deposit and withdrawal create an account on
first reference — initialized with all monetary fields zero and unlocked
(deposit then credits the amount; a withdrawal against a fresh account is
ignored, leaving it zero). Dispute, resolve, and chargeback never create
an account. -/
theorem account_creation_per_optype (st : Ledger) (c tx_id : ℕ) (q : ℚ)
    (h : lookupMap c st.accounts = none) :
    ClientAccount.new c =
      { client := c, available := 0, held := 0, total := 0, locked := false } ∧
    lookupMap c (procDeposit st c q).accounts =
      some (ClientAccount.deposit (ClientAccount.new c) q) ∧
    lookupMap c (procWithdrawal st c q).accounts = some (ClientAccount.new c) ∧
    lookupMap c (procDispute st tx_id c).accounts = none ∧
    lookupMap c (procResolve st tx_id c).accounts = none ∧
    lookupMap c (procChargeback st tx_id c).accounts = none := by
  have hdi : procDispute st tx_id c = st := by
    unfold procDispute
    cases hr : lookupMap tx_id st.txs with
    | none => rfl
    | some r =>
      simp only []
      split_ifs with hcl
      · rw [h]
      · rfl
  have hrv : procResolve st tx_id c = st := by
    unfold procResolve
    cases hr : lookupMap tx_id st.txs with
    | none => rfl
    | some r =>
      simp only []
      split_ifs with hcl
      · rw [h]
      · rfl
  have hcb : procChargeback st tx_id c = st := by
    unfold procChargeback
    cases hr : lookupMap tx_id st.txs with
    | none => rfl
    | some r =>
      simp only []
      split_ifs with hcl
      · rw [h]
      · rfl
  refine ⟨rfl, ?_, ?_, by rw [hdi]; exact h, by rw [hrv]; exact h, by rw [hcb]; exact h⟩
  · unfold procDeposit
    rw [h]
    show lookupMap c (insertMap c _ st.accounts) = _
    rw [lookupMap_insertMap, if_pos rfl]
  · unfold procWithdrawal
    rw [h]
    show lookupMap c (insertMap c _ st.accounts) = _
    rw [lookupMap_insertMap, if_pos rfl]

/-- Witness for the amended C7 at a fresh client id. -/
theorem account_creation_per_optype_witness :
    ClientAccount.new 1 =
      { client := 1, available := 0, held := 0, total := 0, locked := false } ∧
    lookupMap 1 (procDeposit initLedger 1 5).accounts =
      some (ClientAccount.deposit (ClientAccount.new 1) 5) ∧
    lookupMap 1 (procWithdrawal initLedger 1 5).accounts = some (ClientAccount.new 1) ∧
    lookupMap 1 (procDispute initLedger 7 1).accounts = none ∧
    lookupMap 1 (procResolve initLedger 7 1).accounts = none ∧
    lookupMap 1 (procChargeback initLedger 7 1).accounts = none :=
  account_creation_per_optype initLedger 1 7 5 (by decide)

/-- Claim C10: the dispute operation never checks the record's `disputed`
flag. For a record already marked disputed (matching client, unlocked
account, sufficient available funds) a second dispute moves the record's
amount from available to held again, and the record stays disputed. -/
theorem double_dispute_moves_amount_again (st : Ledger) (tx_id c : ℕ)
    (r : TransactionRecord) (acct : ClientAccount)
    (hr : lookupMap tx_id st.txs = some r) (_hd : r.disputed = true) (hc : r.client = c)
    (ha : lookupMap c st.accounts = some acct) (hlock : acct.locked = false)
    (hav : 0 ≤ acct.available - r.amount) :
    lookupMap c (procDispute st tx_id c).accounts =
      some { acct with available := acct.available - r.amount, held := acct.held + r.amount, total := acct.available - r.amount + (acct.held + r.amount) } ∧
    lookupMap tx_id (procDispute st tx_id c).txs = some (TransactionRecord.dispute r) ∧
    (TransactionRecord.dispute r).disputed = true := by
  have happ : ClientAccount.dispute acct r.amount =
      { acct with available := acct.available - r.amount, held := acct.held + r.amount, total := acct.available - r.amount + (acct.held + r.amount) } := by
    unfold ClientAccount.dispute
    rw [if_pos ⟨hlock, hav⟩]
    rfl
  unfold procDispute
  rw [hr]
  simp only [hc, if_pos rfl, ha]
  refine ⟨?_, ?_, rfl⟩
  · show lookupMap c (setMap c (ClientAccount.dispute acct r.amount) st.accounts) = _
    rw [lookupMap_setMap, if_pos rfl, ha, happ]
    rfl
  · show lookupMap tx_id (setMap tx_id (TransactionRecord.dispute r) st.txs) = _
    rw [lookupMap_setMap, if_pos rfl, hr]
    rfl

/-- Witness for C10: starting from a ledger that already holds 5 in
dispute (available 5, held 5), a second dispute of the same record moves 5
again: held becomes 10, twice the record's amount. -/
theorem double_dispute_moves_amount_again_witness :
    lookupMap 1 (procDispute
        { txs := [(1, { amount := 5, client := 1, disputed := true })],
          accounts := [(1, { client := 1, available := 5, held := 5, total := 10, locked := false })] } 1 1).accounts =
      some { client := 1, available := 0, held := 10, total := 10, locked := false } ∧
    lookupMap 1 (procDispute
        { txs := [(1, { amount := 5, client := 1, disputed := true })],
          accounts := [(1, { client := 1, available := 5, held := 5, total := 10, locked := false })] } 1 1).txs =
      some { amount := 5, client := 1, disputed := true } ∧
    (10 : ℚ) = 2 * 5 := by
  have h := double_dispute_moves_amount_again
    { txs := [(1, { amount := 5, client := 1, disputed := true })],
      accounts := [(1, { client := 1, available := 5, held := 5, total := 10, locked := false })] } 1 1
    { amount := 5, client := 1, disputed := true }
    { client := 1, available := 5, held := 5, total := 10, locked := false }
    (by decide) rfl rfl (by decide) rfl (by norm_num)
  refine ⟨?_, ?_, by norm_num⟩
  · rw [h.1]
    norm_num
  · rw [h.2.1]
    rfl

/-- Claim C3: each of the five account operations preserves
`total == available + held` for every amount argument, a freshly created
account satisfies it, and hence it holds for every stored account at every
observation point of every run. -/
theorem total_balance_invariant :
    (∀ (a : ClientAccount) (q : ℚ), totalBalanced a →
      totalBalanced (a.deposit q) ∧ totalBalanced (a.withdrawal q) ∧
      totalBalanced (a.dispute q) ∧ totalBalanced (a.resolve q) ∧
      totalBalanced (a.chargeback q)) ∧
    (∀ c : ℕ, totalBalanced (ClientAccount.new c)) ∧
    (∀ (ts : List Transaction) (s' : Ledger), s' ∈ obsStates initLedger ts →
      ∀ c a, lookupMap c s'.accounts = some a → totalBalanced a) := by
  refine ⟨account_ops_balanced,
    fun c => by simp [totalBalanced, ClientAccount.new], ?_⟩
  intro ts s' hs' c a hla
  have h := obsStates_preserve balancedLedger (fun _ => True)
    (fun s t s2 _ hb hst => stepTx_balanced s t s2 hb hst) ts initLedger
    (fun c0 a0 h0 => by simp [initLedger, lookupMap] at h0)
    (fun _ _ => trivial) s' hs'
  exact h c a hla

/-- Witness for C3 at a concrete account and amount. -/
theorem total_balance_invariant_witness :
    totalBalanced ((ClientAccount.new 1).deposit 5) :=
  (total_balance_invariant.1 (ClientAccount.new 1) 5
    (by simp [totalBalanced, ClientAccount.new])).1

/-- Claim C4 counterexample: a deposit instruction carrying the negative
amount `-1` leaves the fresh account with `available = -1 < 0`. -/
theorem nonneg_balances_refuted :
    lookupMap 1 (runTxs initLedger
        [{ tx_type := "deposit", client := 1, tx := 1, amount := some (-1) }]).accounts =
      some { client := 1, available := -1, held := 0, total := -1, locked := false } ∧
    ((-1 : ℚ) < 0) := by
  exact ⟨by decide, by norm_num⟩

/-- Claim C4 (amended): provided every instruction amount in the run is
nonnegative (a missing amount parses to zero), every stored account has
`available ≥ 0` and `held ≥ 0` at every observation point, and every
stored transaction record has a nonnegative amount. -/
theorem nonneg_balances_of_nonneg_amounts (ts : List Transaction)
    (hts : ∀ t ∈ ts, ∀ q, t.amount = some q → 0 ≤ q) :
    ∀ s' ∈ obsStates initLedger ts,
      (∀ c a, lookupMap c s'.accounts = some a → 0 ≤ a.available ∧ 0 ≤ a.held) ∧
      (∀ k r, lookupMap k s'.txs = some r → 0 ≤ r.amount) := by
  intro s' hs'
  have h := obsStates_preserve nonnegLedger (fun t => ∀ q, t.amount = some q → 0 ≤ q)
    (fun s t s2 hQ hn hst => stepTx_nonneg s t s2 hQ hn hst) ts initLedger
    ⟨fun c0 a0 h0 => by simp [initLedger, lookupMap] at h0,
     fun k0 r0 h0 => by simp [initLedger, lookupMap] at h0⟩ hts s' hs'
  exact ⟨fun c a hla => h.1 c a hla, h.2⟩

/-- Witness for the amended C4: one nonnegative deposit, checked at the
final observation point. -/
theorem nonneg_balances_of_nonneg_amounts_witness :
    (0 : ℚ) ≤ ({ client := 1, available := 5, held := 0, total := 5, locked := false } : ClientAccount).available ∧
    (0 : ℚ) ≤ ({ client := 1, available := 5, held := 0, total := 5, locked := false } : ClientAccount).held := by
  have h := nonneg_balances_of_nonneg_amounts
    [{ tx_type := "deposit", client := 1, tx := 1, amount := some 5 }]
    (by
      intro t ht q hq
      rw [List.mem_singleton] at ht
      subst ht
      have h5 : (5 : ℚ) = q := Option.some.inj hq
      rw [← h5]
      norm_num)
    (runTxs initLedger
      [{ tx_type := "deposit", client := 1, tx := 1, amount := some 5 }])
    (by decide)
  exact h.1 1 _ (by decide)

/-- Claim C5: once an account is locked it persists, locked and in fact
completely unchanged, through every further instruction of the run. -/
theorem locked_is_monotonic (s : Ledger) (ts : List Transaction) (c : ℕ)
    (acct : ClientAccount) (hl : lookupMap c s.accounts = some acct)
    (hlock : acct.locked = true) :
    lookupMap c (runTxs s ts).accounts = some acct :=
  runTxs_locked_persists ts s c acct hl hlock

/-- Witness for C5: a locked account survives a later deposit attempt
untouched. -/
theorem locked_is_monotonic_witness :
    lookupMap 1 (runTxs
        { txs := [],
          accounts := [(1, { client := 1, available := 0, held := 0, total := 0, locked := true })] }
        [{ tx_type := "deposit", client := 1, tx := 7, amount := some 3 }]).accounts =
      some { client := 1, available := 0, held := 0, total := 0, locked := true } :=
  locked_is_monotonic
    { txs := [],
      accounts := [(1, { client := 1, available := 0, held := 0, total := 0, locked := true })] }
    [{ tx_type := "deposit", client := 1, tx := 7, amount := some 3 }] 1
    { client := 1, available := 0, held := 0, total := 0, locked := true }
    (by decide) rfl

/-- Claim C8: the four-fractional-digit decimal 16777216.0001 is a fixed
point of the ingestion rounding, yet no `f32` value `m * 2^e` equals it
(its reduced denominator 10000 has the factor 5^4), so the
`amount: Option<f32>` field the instruction path goes through cannot carry
it: the recorded amount cannot equal this instruction's decimal value. -/
theorem amount_not_f32_representable :
    roundDp4 ((167772160001 : ℚ) / 10000) = (167772160001 : ℚ) / 10000 ∧
    f32Exact ((167772160001 : ℚ) / 10000) = False := by
  constructor
  · decide
  · apply eq_false
    rintro ⟨m, e, hme⟩
    have hcontra : ∀ (k : ℕ) (n : ℤ),
        ((167772160001 : ℚ) / 10000) * 2 ^ k ≠ (n : ℚ) := by
      intro k n hkn
      have hq : (167772160001 : ℚ) * 2 ^ k = (n : ℚ) * 10000 := by
        field_simp at hkn
        linarith [hkn]
      have hz : (167772160001 : ℤ) * 2 ^ k = n * 10000 := by exact_mod_cast hq
      have h5 : (5 : ℤ) ∣ 167772160001 * 2 ^ k := by
        rw [hz]
        exact ⟨n * 2000, by ring⟩
      have hp : Prime (5 : ℤ) := by norm_num
      rcases hp.dvd_or_dvd h5 with hdvd | hdvd
      · norm_num at hdvd
      · have h2 : (5 : ℤ) ∣ 2 := hp.dvd_of_dvd_pow hdvd
        norm_num at h2
    rcases le_or_lt 0 e with he | he
    · lift e to ℕ using he with e0
      rw [zpow_natCast] at hme
      refine hcontra 0 (m * 2 ^ e0) ?_
      rw [pow_zero, mul_one, hme]
      push_cast
      ring
    · have hk : ((-e).toNat : ℤ) = -e := Int.toNat_of_nonneg (by linarith)
      refine hcontra (-e).toNat m ?_
      rw [hme, ← zpow_natCast (2 : ℚ) (-e).toNat, hk, mul_assoc,
        ← zpow_add₀ (by norm_num : (2 : ℚ) ≠ 0)]
      simp

/-- A poll trace of message/empty pairs followed by a final message
exhausts the budget after exactly `n` pairs: the processed output is just
the first `n` messages and the final arrival is dropped. -/
theorem processedPolls_altPolls {α : Type} (t t' : α) :
    ∀ n : ℕ, 1 ≤ n →
      processedPolls n (altPolls t n ++ [some t']) = List.replicate n t := by
  intro n
  induction n with
  | zero => intro h; omega
  | succ m ih =>
    intro _
    cases m with
    | zero => rfl
    | succ l =>
      show t :: processedPolls (l + 1) (altPolls t (l + 1) ++ [some t']) =
        List.replicate (l + 1 + 1) t
      rw [ih (by omega)]
      rfl

/-- Every idle gap in a pair trace has length one. -/
theorem noTwoEmpty_altPolls {α : Type} (t t' : α) :
    ∀ n : ℕ, noTwoEmpty (altPolls t n ++ [some t']) = true ∧
      noTwoEmpty ((none : Option α) :: (altPolls t n ++ [some t'])) = true := by
  intro n
  induction n with
  | zero => exact ⟨rfl, rfl⟩
  | succ m ih => exact ⟨ih.2, ih.2⟩

/-- An element distinct from the replicated one never occurs. -/
theorem contains_replicate_of_ne {α : Type} [DecidableEq α] (a b : α)
    (h : (a == b) = false) :
    ∀ n : ℕ, (List.replicate n b).contains a = false := by
  intro n
  induction n with
  | zero => rfl
  | succ m ih =>
    simp only [List.replicate_succ, List.contains_cons, ih, h, Bool.or_false]

/-- Claim C9 counterexample: with the source's budget of 100000, a trace
in which every instruction arrival is followed by a single empty poll (so
the stage never sees two consecutive empty polls, and every gap between
arrivals stays far below the budget) still terminates the stage after
100000 pairs: the 100001-st arrival is never processed, refuting the
claim that the empty-poll count restarts on every received instruction. -/
theorem retry_budget_consecutive_refuted :
    processedPolls retryBudget
        (altPolls ({ tx_type := "deposit", client := 1, tx := 1, amount := some 1 } :
            Transaction) retryBudget ++
          [some { tx_type := "deposit", client := 1, tx := 2, amount := some 1 }]) =
      List.replicate retryBudget
        { tx_type := "deposit", client := 1, tx := 1, amount := some 1 } ∧
    noTwoEmpty
        (altPolls ({ tx_type := "deposit", client := 1, tx := 1, amount := some 1 } :
            Transaction) retryBudget ++
          [some { tx_type := "deposit", client := 1, tx := 2, amount := some 1 }]) =
      true ∧
    (List.replicate retryBudget
        ({ tx_type := "deposit", client := 1, tx := 1, amount := some 1 } :
          Transaction)).contains
        { tx_type := "deposit", client := 1, tx := 2, amount := some 1 } = false := by
  refine ⟨processedPolls_altPolls _ _ retryBudget (by norm_num [retryBudget]),
    (noTwoEmpty_altPolls _ _ retryBudget).1,
    contains_replicate_of_ne _ _ (by decide) retryBudget⟩

/-- The loop processes every message of a poll trace whose total number of
empty polls stays below the budget. -/
theorem processedPolls_complete {α : Type} :
    ∀ (polls : List (Option α)) (r : ℕ), countNones polls < r →
      processedPolls r polls = polls.filterMap id := by
  intro polls
  induction polls with
  | nil => intro r _; rfl
  | cons p rest ih =>
    intro r hr
    cases p with
    | some t =>
      simp only [countNones] at hr
      show t :: processedPolls r rest = List.filterMap id (some t :: rest)
      rw [ih r hr]
      rfl
    | none =>
      simp only [countNones] at hr
      have h1 : ¬ (r - 1 = 0) := by omega
      show (if r - 1 = 0 then [] else processedPolls (r - 1) rest) =
        List.filterMap id ((none : Option α) :: rest)
      rw [if_neg h1, ih (r - 1) (by omega)]
      rfl

/-- The loop stops exactly at the cumulative `r`-th empty poll: whatever
follows it, only the messages before it are processed. -/
theorem processedPolls_stops {α : Type} :
    ∀ (pre : List (Option α)) (r : ℕ) (post : List (Option α)),
      1 ≤ r → countNones pre = r - 1 →
      processedPolls r (pre ++ none :: post) = pre.filterMap id := by
  intro pre
  induction pre with
  | nil =>
    intro r post h1 h2
    simp only [countNones] at h2
    have hr : r = 1 := by omega
    subst hr
    rfl
  | cons p rest ih =>
    intro r post h1 h2
    cases p with
    | some t =>
      simp only [countNones] at h2
      show t :: processedPolls r (rest ++ none :: post) =
        List.filterMap id (some t :: rest)
      rw [ih r post h1 h2]
      rfl
    | none =>
      simp only [countNones] at h2
      have h2' : ¬ (r - 1 = 0) := by omega
      show (if r - 1 = 0 then [] else processedPolls (r - 1) (rest ++ none :: post)) =
        List.filterMap id ((none : Option α) :: rest)
      rw [if_neg h2', ih (r - 1) post (by omega) (by omega)]
      rfl

/-- Claim C9 (amended): the retry budget of `store_transactions` and
`process_transactions` is cumulative, not consecutive. Receiving an
instruction leaves the countdown untouched; a run whose total number of
empty polls stays below the budget processes every instruction; and the
stage stops exactly at the `r`-th cumulative empty poll, dropping
everything polled after it. -/
theorem retry_budget_is_cumulative {α : Type} (r : ℕ) (t : α)
    (rest : List (Option α)) :
    (processedPolls r (some t :: rest) = t :: processedPolls r rest) ∧
    (∀ polls : List (Option α), countNones polls < r →
      processedPolls r polls = polls.filterMap id) ∧
    (∀ pre post : List (Option α), 1 ≤ r → countNones pre = r - 1 →
      processedPolls r (pre ++ none :: post) = pre.filterMap id) := by
  refine ⟨rfl, fun polls h => processedPolls_complete polls r h,
    fun pre post h1 h2 => processedPolls_stops pre r post h1 h2⟩

/-- Witness for the amended C9 at budget 3: a message does not reset the
countdown, a trace with fewer empty polls than the budget is fully
processed, and the trace `[none, none, some 5]` with budget 2 stops at the
second empty poll, dropping the trailing message. -/
theorem retry_budget_is_cumulative_witness :
    (processedPolls 3 [some (1 : ℕ), none, some 2] =
      1 :: processedPolls 3 [none, some 2]) ∧
    (processedPolls 3 [none, some (2 : ℕ)] = [2]) ∧
    (processedPolls 2 [none, none, some (5 : ℕ)] = []) := by
  have h := retry_budget_is_cumulative 3 (1 : ℕ) [none, some 2]
  refine ⟨h.1, ?_, ?_⟩
  · exact h.2.1 [none, some 2] (by decide)
  · exact (retry_budget_is_cumulative 2 (0 : ℕ) []).2.2 [none] [some 5]
      (by decide) (by decide)

end ToyPayments
